import Mathlib

/-! Shallow embedding of the py-mono `pi_ai` streaming layer:
the assistant-message event assembler (src/pi_ai/event_stream.py), the
OpenAI-compatible usage/cost mapping (src/pi_ai/providers/openai_compat.py)
and the provider registry (src/pi_ai/registry.py).

Modelling conventions:
- Python `int` is modelled as `Int` and Python `float` as an exact rational
  (`Rat`); the cost arithmetic in the source is plain `+ / *` on small
  values, which the rational model reproduces branch-for-branch.
- A Python dict field that may be missing or of the wrong runtime type is
  modelled as `Option`: `none` covers both "key absent" and "failed the
  `isinstance` check", exactly the distinction the source makes.
- `json.loads` (Python standard library, not repository code) is a
  parameter `J : String → Option Json` of the finalization functions;
  `none` models a raised `JSONDecodeError`.
- The cached final message stores `self._usage` by reference in the source
  (`message["usage"] = self._usage`), so reads of the cached message see
  later in-place mutations of the usage accumulator; `cachedFinal` makes
  that observation explicit.
-/

namespace PiAI

/-- StopReason literal from src/pi_ai/types.py. -/
inductive StopReason where
  | stop
  | length
  | tool_use
  | error
  | aborted
deriving DecidableEq, Repr

/-- UsageCost from src/pi_ai/types.py (floats modelled as rationals). -/
structure UsageCost where
  input : Rat
  output : Rat
  cache_read : Rat
  cache_write : Rat
  total : Rat
deriving DecidableEq, Repr

/-- Usage from src/pi_ai/types.py. -/
structure Usage where
  input : Int
  output : Int
  cache_read : Int
  cache_write : Int
  total_tokens : Int
  cost : UsageCost
deriving DecidableEq, Repr

/-- `_zero_usage` from src/pi_ai/event_stream.py. -/
def zero_usage : Usage :=
  { input := 0, output := 0, cache_read := 0, cache_write := 0, total_tokens := 0
    cost := { input := 0, output := 0, cache_read := 0, cache_write := 0, total := 0 } }

/-- Minimal JSON value universe, used to model the result of `json.loads`
on a tool-call argument buffer (the assembler only inspects whether the
parse succeeded and whether the result is an object). -/
inductive Json where
  | null
  | bool (b : Bool)
  | num (q : Rat)
  | str (s : String)
  | arr (elems : List Json)
  | obj (fields : List (String × Json))

/-- Model identity (src/pi_ai/types.py `Model` dataclass). -/
structure Model where
  api : String
  provider : String
  model : String

/-- Content block union TextContent / ToolCallContent from src/pi_ai/types.py;
`arguments` is the parsed JSON object (a field list). -/
inductive ContentBlock where
  | text (text : String)
  | toolCall (id : String) (name : String) (arguments : List (String × Json))

/-- AssistantMessage from src/pi_ai/types.py; `error_message` is `none` when
the `error_message` key is absent from the message dict. -/
structure AssistantMessage where
  content : List ContentBlock
  api : String
  provider : String
  model : String
  usage : Usage
  stop_reason : StopReason
  timestamp : Int
  error_message : Option String

/-- Per-index tool-call accumulator: the dict
`{"id": "", "name": "", "arguments_json": ""}` created at
src/pi_ai/event_stream.py line 77. -/
structure ToolCallAcc where
  id : String
  name : String
  arguments_json : String
deriving DecidableEq, Repr

/-- Partial cost record carried by a `usage` event (`cost` sub-dict);
`none` marks a key that is absent or not numeric. -/
structure CostDelta where
  input : Option Rat
  output : Option Rat
  cache_read : Option Rat
  cache_write : Option Rat
  total : Option Rat
deriving DecidableEq, Repr

/-- Partial usage record carried by a `usage` event; `none` marks a key
that is absent or fails the `isinstance` check; `cost := none` models a
`cost` entry that is absent or not a dict. -/
structure UsageDelta where
  input : Option Int
  output : Option Int
  cache_read : Option Int
  cache_write : Option Int
  total_tokens : Option Int
  cost : Option CostDelta
deriving DecidableEq, Repr

/-- The empty usage delta (every field absent). -/
def emptyUsageDelta : UsageDelta :=
  { input := none, output := none, cache_read := none, cache_write := none
    total_tokens := none, cost := none }

/-- Wire events consumed by `AssistantMessageEventStream.__anext__`.
For `toolcall_delta`, `index := none` models a missing or non-integer
`index` key; for `done`, `reason := none` models a reason outside the set
{stop, length, tool_use, error, aborted} (including a missing one); for
`error`, the payload is the `str()` image of the `error` value, `none`
modelling a missing/None payload; `other` stands for any unrecognized
event type (including `start`, which has no match arm). -/
inductive Event where
  | start
  | text_delta (delta : Option String)
  | toolcall_delta (index : Option Int) (id : Option String)
      (name : Option String) (arguments_delta : Option String)
  | done (reason : Option StopReason)
  | usage (u : Option UsageDelta)
  | error (err : Option String)
  | other
deriving DecidableEq, Repr

/-- Assoc-list lookup modelling `self._tool_calls.get(index)` (Python dict
keys are unique, so first-match lookup is exact). -/
def lookupTC : List (Int × ToolCallAcc) → Int → Option ToolCallAcc
  | [], _ => none
  | (k, c) :: rest, i => if i = k then some c else lookupTC rest i

/-- Assoc-list update modelling `self._tool_calls[index] = call`: replace
in place when the key exists, append otherwise (Python dict insertion
order). -/
def updateTC : List (Int × ToolCallAcc) → Int → ToolCallAcc → List (Int × ToolCallAcc)
  | [], i, c => [(i, c)]
  | (k, d) :: rest, i, c =>
      if k = i then (i, c) :: rest else (k, d) :: updateTC rest i c

/-- The three field updates applied to a tool-call accumulator by one
`toolcall_delta` event (src/pi_ai/event_stream.py lines 80-88): overwrite
id/name only by a present non-empty string, append a present non-empty
arguments fragment. -/
def applyDelta (call : ToolCallAcc) (idv namev argsv : Option String) : ToolCallAcc :=
  let c1 := match idv with
    | some v => if v = "" then call else { call with id := v }
    | none => call
  let c2 := match namev with
    | some v => if v = "" then c1 else { c1 with name := v }
    | none => c1
  match argsv with
  | some v => if v = "" then c2 else { c2 with arguments_json := c2.arguments_json ++ v }
  | none => c2

/-- Accumulator state of one `AssistantMessageEventStream` (the `self._*`
fields set in `__init__`). -/
structure StreamState where
  text : String
  tool_calls : List (Int × ToolCallAcc)
  usage : Usage
  final : Option AssistantMessage
  stop_reason : Option StopReason
  error_message : Option String

/-- Initial state built by `AssistantMessageEventStream.__init__`. -/
def initState : StreamState :=
  { text := "", tool_calls := [], usage := zero_usage, final := none
    stop_reason := none, error_message := none }

/-- Merge of a `cost` sub-dict into the accumulator's cost record
(src/pi_ai/event_stream.py lines 104-109): overwrite each field that is
present and numeric. -/
def mergeCost (c : UsageCost) (d : CostDelta) : UsageCost :=
  { input := d.input.getD c.input
    output := d.output.getD c.output
    cache_read := d.cache_read.getD c.cache_read
    cache_write := d.cache_write.getD c.cache_write
    total := d.total.getD c.total }

/-- Merge of a `usage` event payload into the usage accumulator
(src/pi_ai/event_stream.py lines 96-109): overwrite each integer field
that is present, and merge the cost sub-dict when it is a dict. -/
def mergeUsage (u : Usage) (d : UsageDelta) : Usage :=
  { input := d.input.getD u.input
    output := d.output.getD u.output
    cache_read := d.cache_read.getD u.cache_read
    cache_write := d.cache_write.getD u.cache_write
    total_tokens := d.total_tokens.getD u.total_tokens
    cost := match d.cost with
      | some cd => mergeCost u.cost cd
      | none => u.cost }

/-- Finalization of one tool-call argument buffer
(src/pi_ai/event_stream.py lines 141-149): start from the empty object,
parse only a non-blank buffer, keep the parse only when it is an object;
a failed parse (`J` returns `none`, modelling `JSONDecodeError`) or a
non-object parse leaves the empty object. -/
def finalize_args (J : String → Option Json) (args_json : String) : List (String × Json) :=
  if args_json.trim = "" then []
  else
    match J args_json with
    | some (Json.obj fields) => fields
    | _ => []

/-- One tool-call content block built at finalization
(src/pi_ai/event_stream.py lines 151-158): falsy (empty) id/name fall back
to "toolcall:{index}" / "unknown". -/
def assembleBlock (J : String → Option Json) (tcs : List (Int × ToolCallAcc))
    (index : Int) : ContentBlock :=
  let call := (lookupTC tcs index).getD { id := "", name := "", arguments_json := "" }
  ContentBlock.toolCall
    (if call.id = "" then "toolcall:" ++ toString index else call.id)
    (if call.name = "" then "unknown" else call.name)
    (finalize_args J call.arguments_json)

/-- `AssistantMessageEventStream._assemble_final`
(src/pi_ai/event_stream.py lines 132-176). `now` stands for `_now_ms()`. -/
def assemble_final (J : String → Option Json) (M : Model) (now : Int)
    (s : StreamState) : AssistantMessage :=
  let sr0 : StopReason := s.stop_reason.getD StopReason.stop
  let textPart : List ContentBlock :=
    if s.text = "" then [] else [ContentBlock.text s.text]
  let ks : List Int := List.insertionSort (· ≤ ·) (s.tool_calls.map Prod.fst)
  let content : List ContentBlock := textPart ++ ks.map (assembleBlock J s.tool_calls)
  let sr : StopReason :=
    if s.tool_calls ≠ [] ∧ sr0 = StopReason.stop then StopReason.tool_use else sr0
  { content := content
    api := M.api, provider := M.provider, model := M.model
    usage := s.usage
    stop_reason := sr
    timestamp := now
    error_message := match s.error_message with
      | some msg => if msg = "" then none else some msg
      | none => none }

/-- State transition of `AssistantMessageEventStream.__anext__`
(src/pi_ai/event_stream.py lines 62-116), minus the pass-through return of
the event itself (see `anext`). -/
def step (J : String → Option Json) (M : Model) (now : Int)
    (s : StreamState) (e : Event) : StreamState :=
  match e with
  | Event.start => s
  | Event.other => s
  | Event.text_delta d =>
      match d with
      | some t => { s with text := s.text ++ t }
      | none => s
  | Event.toolcall_delta idx idv namev argsv =>
      match idx with
      | none => s
      | some i =>
          let call := (lookupTC s.tool_calls i).getD
            { id := "", name := "", arguments_json := "" }
          { s with tool_calls := updateTC s.tool_calls i (applyDelta call idv namev argsv) }
  | Event.done reason =>
      let s' := { s with stop_reason := some (reason.getD StopReason.stop) }
      { s' with final := some (assemble_final J M now s') }
  | Event.usage u =>
      match u with
      | some du => { s with usage := mergeUsage s.usage du }
      | none => s
  | Event.error p =>
      let s' := { s with error_message := some (p.getD "unknown error")
                         stop_reason := some StopReason.error }
      { s' with final := some (assemble_final J M now s') }

/-- `__anext__` proper: it always returns the received event unchanged and
applies the state transition. -/
def anext (J : String → Option Json) (M : Model) (now : Int)
    (s : StreamState) (e : Event) : Event × StreamState :=
  (e, step J M now s e)

/-- Run a list of events through the assembler state machine. -/
def runEvents (J : String → Option Json) (M : Model) (now : Int)
    (s : StreamState) (events : List Event) : StreamState :=
  events.foldl (step J M now) s

/-- Observation of the cached final message. In the source the cached
message dict holds `self._usage` by reference, and later `usage` events
mutate that dict in place, so a reader of the cached message sees the
current usage accumulator; every other message field is an immutable
snapshot taken at assembly time. -/
def cachedFinal (s : StreamState) : Option AssistantMessage :=
  s.final.map (fun m => { m with usage := s.usage })

/-- A trivial concrete stand-in for `json.loads` used by concrete
witnesses (every parse fails); the theorems quantify over the parser. -/
def jNone : String → Option Json := fun _ => none

/-- A concrete model identity used by concrete witnesses. -/
def mdl : Model := { api := "api", provider := "prov", model := "m" }

/-! Helper lemmas on the assoc-list model of `self._tool_calls`. -/

theorem lookupTC_updateTC (l : List (Int × ToolCallAcc)) (i : Int) (c : ToolCallAcc)
    (k : Int) : lookupTC (updateTC l i c) k = if k = i then some c else lookupTC l k := by
  induction l with
  | nil => simp [updateTC, lookupTC]
  | cons hd tl ih =>
      obtain ⟨j, d⟩ := hd
      by_cases hji : j = i
      · subst hji
        by_cases hkj : k = j <;> simp [updateTC, lookupTC, hkj]
      · by_cases hkj : k = j
        · subst hkj
          simp [updateTC, lookupTC, hji, Ne.symm hji]
        · simp [updateTC, lookupTC, hji, hkj, ih]

theorem updateTC_ne_nil (l : List (Int × ToolCallAcc)) (i : Int) (c : ToolCallAcc) :
    updateTC l i c ≠ [] := by
  cases l with
  | nil => simp [updateTC]
  | cons hd tl =>
      obtain ⟨j, d⟩ := hd
      by_cases hji : j = i <;> simp [updateTC, hji]

theorem mem_keys_of_lookupTC {l : List (Int × ToolCallAcc)} {i : Int} {c : ToolCallAcc}
    (h : lookupTC l i = some c) : i ∈ l.map Prod.fst := by
  induction l with
  | nil => simp [lookupTC] at h
  | cons hd tl ih =>
      obtain ⟨j, d⟩ := hd
      by_cases hij : i = j
      · simp [hij]
      · simp [lookupTC, hij] at h
        simp [ih h]

theorem updateTC_updateTC_perm (l : List (Int × ToolCallAcc)) (i j : Int)
    (hij : i ≠ j) (c d : ToolCallAcc) :
    List.Perm (updateTC (updateTC l i c) j d) (updateTC (updateTC l j d) i c) := by
  induction l with
  | nil =>
      simp only [updateTC, if_neg hij, if_neg (Ne.symm hij)]
      exact List.Perm.swap _ _ _
  | cons hd tl ih =>
      obtain ⟨k, a⟩ := hd
      by_cases hki : k = i
      · subst hki
        simp [updateTC, hij, Ne.symm hij]
      · by_cases hkj : k = j
        · subst hkj
          simp [updateTC, hij, Ne.symm hij, hki]
        · simp only [updateTC, if_neg hki, if_neg hkj]
          exact List.Perm.cons _ ih

/-- C10: a `toolcall_delta` event whose `index` is missing or not an
integer is returned to the consumer unchanged and leaves the whole
assembler state untouched. -/
theorem C10_bad_index_is_noop (J : String → Option Json) (M : Model) (now : Int)
    (s : StreamState) (idv namev argsv : Option String) :
    anext J M now s (Event.toolcall_delta none idv namev argsv) =
      (Event.toolcall_delta none idv namev argsv, s) := rfl

/-- C3: at finalization, a recorded stop reason of `stop` (reached both as
the unset default and as an explicit `stop`) is upgraded to `tool_use`
exactly when a tool-call block is emitted, while an explicit `length`,
`error` or `aborted` reason is never changed. -/
theorem C3_stop_reason_upgrade (J : String → Option Json) (M : Model) (now : Int)
    (s : StreamState) :
    (s.tool_calls ≠ [] → s.stop_reason = none ∨ s.stop_reason = some StopReason.stop →
      (assemble_final J M now s).stop_reason = StopReason.tool_use)
    ∧ (s.stop_reason = some StopReason.length →
        (assemble_final J M now s).stop_reason = StopReason.length)
    ∧ (s.stop_reason = some StopReason.error →
        (assemble_final J M now s).stop_reason = StopReason.error)
    ∧ (s.stop_reason = some StopReason.aborted →
        (assemble_final J M now s).stop_reason = StopReason.aborted) := by
  refine ⟨fun htc hsr => ?_, fun h => ?_, fun h => ?_, fun h => ?_⟩
  · rcases hsr with h | h <;> simp [assemble_final, h, htc]
  · simp [assemble_final, h]
  · simp [assemble_final, h]
  · simp [assemble_final, h]

/-- Concrete state with one tool-call accumulator and no recorded stop
reason. -/
def c3_sA : StreamState :=
  { initState with tool_calls := [(0, { id := "", name := "", arguments_json := "" })] }

/-- Concrete state with one tool-call accumulator and an explicit `length`
stop reason. -/
def c3_sB : StreamState :=
  { c3_sA with stop_reason := some StopReason.length }

/-- C3 witness: with a tool call present, the default reason upgrades to
`tool_use` while an explicit `length` is preserved. -/
theorem C3_stop_reason_upgrade_witness :
    (assemble_final jNone mdl 0 c3_sA).stop_reason = StopReason.tool_use
    ∧ (assemble_final jNone mdl 0 c3_sB).stop_reason = StopReason.length :=
  ⟨(C3_stop_reason_upgrade jNone mdl 0 c3_sA).1 (by decide) (Or.inl rfl),
   (C3_stop_reason_upgrade jNone mdl 0 c3_sB).2.1 rfl⟩

theorem applyDelta_id (call : ToolCallAcc) (idv namev argsv : Option String) :
    (applyDelta call idv namev argsv).id =
      (match idv with
        | some v => if v = "" then call.id else v
        | none => call.id) := by
  cases idv <;> cases namev <;> cases argsv <;>
    simp only [applyDelta] <;> split_ifs <;> rfl

theorem applyDelta_name (call : ToolCallAcc) (idv namev argsv : Option String) :
    (applyDelta call idv namev argsv).name =
      (match namev with
        | some v => if v = "" then call.name else v
        | none => call.name) := by
  cases idv <;> cases namev <;> cases argsv <;>
    simp only [applyDelta] <;> split_ifs <;> rfl

theorem applyDelta_args (call : ToolCallAcc) (idv namev argsv : Option String) :
    (applyDelta call idv namev argsv).arguments_json =
      (match argsv with
        | some v => if v = "" then call.arguments_json
                    else call.arguments_json ++ v
        | none => call.arguments_json) := by
  cases idv <;> cases namev <;> cases argsv <;>
    simp only [applyDelta] <;> split_ifs <;> rfl

/-- C1 (amended): the tool-call accumulator's id and name follow
last-non-empty-wins — a non-empty id (resp. name) carried by a
`toolcall_delta` overwrites the stored value, while an absent or empty
value leaves it unchanged; the argument buffer appends every non-empty
fragment. -/
theorem C1_last_nonempty_wins (J : String → Option Json) (M : Model) (now : Int)
    (s : StreamState) (i : Int) (idv namev argsv : Option String) :
    ∃ c' : ToolCallAcc,
      lookupTC (step J M now s (Event.toolcall_delta (some i) idv namev argsv)).tool_calls i
          = some c'
      ∧ c'.id = (match idv with
          | some v => if v = "" then ((lookupTC s.tool_calls i).getD ⟨"", "", ""⟩).id else v
          | none => ((lookupTC s.tool_calls i).getD ⟨"", "", ""⟩).id)
      ∧ c'.name = (match namev with
          | some v => if v = "" then ((lookupTC s.tool_calls i).getD ⟨"", "", ""⟩).name else v
          | none => ((lookupTC s.tool_calls i).getD ⟨"", "", ""⟩).name)
      ∧ c'.arguments_json = (match argsv with
          | some v => if v = "" then ((lookupTC s.tool_calls i).getD ⟨"", "", ""⟩).arguments_json
                      else ((lookupTC s.tool_calls i).getD ⟨"", "", ""⟩).arguments_json ++ v
          | none => ((lookupTC s.tool_calls i).getD ⟨"", "", ""⟩).arguments_json) := by
  refine ⟨applyDelta ((lookupTC s.tool_calls i).getD ⟨"", "", ""⟩) idv namev argsv,
    ?_, applyDelta_id _ _ _ _, applyDelta_name _ _ _ _, applyDelta_args _ _ _ _⟩
  simp [step, lookupTC_updateTC]

/-- Event list sending two non-empty ids for the same tool-call index. -/
def c1_events : List Event :=
  [Event.toolcall_delta (some 0) (some "call_a") none none,
   Event.toolcall_delta (some 0) (some "call_b") none none,
   Event.done (some StopReason.stop)]

/-- Projection of a content block to its tool-call id. -/
def blockId : ContentBlock → Option String
  | ContentBlock.toolCall id _ _ => some id
  | _ => none

/-- C1 counterexample: after two `toolcall_delta` events with non-empty
ids "call_a" then "call_b" for index 0, the final tool-call block carries
"call_b" — the later non-empty value overwrote the first, refuting
first-non-empty-wins. -/
theorem C1_counterexample :
    ((runEvents jNone mdl 0 initState c1_events).final.map
        (fun m => m.content.filterMap blockId) = some ["call_b"])
    ∧ ("call_b" : String) ≠ "call_a" := by
  exact ⟨rfl, by decide⟩

/-- State after a single `done` event: the final message is cached. -/
def c2_s1 : StreamState :=
  runEvents jNone mdl 0 initState [Event.done (some StopReason.stop)]

/-- `c2_s1` after one further partial `usage` event. -/
def c2_s2 : StreamState :=
  step jNone mdl 0 c2_s1 (Event.usage (some { emptyUsageDelta with input := some 5 }))

/-- State after `done`, a further `text_delta`, and a second `done`. -/
def c2_s3 : StreamState :=
  runEvents jNone mdl 0 initState
    [Event.done (some StopReason.stop), Event.text_delta (some "x"),
     Event.done (some StopReason.stop)]

/-- C2 counterexample: after finalization, a later `usage` event changes
the cached message's usage (the cached dict aliases the usage
accumulator), and a later `done` event recomputes the cached message
(its content grows a text block) — refuting both "no later event mutates
any field" and "the cached message is never recomputed". -/
theorem C2_counterexample :
    ((cachedFinal c2_s1).map (fun m => m.usage.input) = some 0
      ∧ (cachedFinal c2_s2).map (fun m => m.usage.input) = some 5)
    ∧ ((cachedFinal c2_s1).map (fun m => m.content.length) = some 0
      ∧ (cachedFinal c2_s3).map (fun m => m.content.length) = some 1) := by
  exact ⟨⟨rfl, rfl⟩, ⟨rfl, rfl⟩⟩

/-- Events with no reduction effect on the cached message: text and
tool-call deltas, plus unrecognized event types. -/
def isDeltaEvent : Event → Bool
  | Event.text_delta _ => true
  | Event.toolcall_delta _ _ _ _ => true
  | Event.start => true
  | Event.other => true
  | _ => false

/-- C2 (amended): once finalized, further text-delta, tool-call-delta and
unrecognized events leave the cached final message unchanged; however a
later `usage` event mutates the usage record the cached message shares,
and a later `done` or `error` event recomputes the cached message. -/
theorem C2_cached_final_stable (J : String → Option Json) (M : Model) (now : Int)
    (s : StreamState) (e : Event) (_hfin : s.final.isSome = true)
    (he : isDeltaEvent e = true) :
    cachedFinal (step J M now s e) = cachedFinal s := by
  cases e with
  | text_delta d => cases d <;> rfl
  | toolcall_delta idx idv namev argsv => cases idx <;> rfl
  | start => rfl
  | other => rfl
  | done r => simp [isDeltaEvent] at he
  | usage u => simp [isDeltaEvent] at he
  | error p => simp [isDeltaEvent] at he

/-- C2 witness: a text delta arriving after finalization leaves the cached
message unchanged. -/
theorem C2_cached_final_stable_witness :
    cachedFinal (step jNone mdl 0 c2_s1 (Event.text_delta (some "y"))) = cachedFinal c2_s1 :=
  C2_cached_final_stable jNone mdl 0 c2_s1 (Event.text_delta (some "y")) (by decide) rfl

/-- Presence-disjointness of two optional fields: at most one of them is
set. -/
def disjOpt {α : Type} (a b : Option α) : Bool := a.isNone || b.isNone

/-- Field-wise presence-disjointness of two partial cost records. -/
def CostDelta.disjB (c d : CostDelta) : Bool :=
  disjOpt c.input d.input && disjOpt c.output d.output &&
    disjOpt c.cache_read d.cache_read && disjOpt c.cache_write d.cache_write &&
    disjOpt c.total d.total

/-- Field-wise presence-disjointness of two partial usage records (when
both carry a cost sub-record, the cost fields must also be disjoint). -/
def UsageDelta.disjB (d e : UsageDelta) : Bool :=
  disjOpt d.input e.input && disjOpt d.output e.output &&
    disjOpt d.cache_read e.cache_read && disjOpt d.cache_write e.cache_write &&
    disjOpt d.total_tokens e.total_tokens &&
    (match d.cost, e.cost with
      | some cd, some ce => CostDelta.disjB cd ce
      | _, _ => true)

theorem getD_disjOpt_comm {α : Type} (x : α) (a b : Option α)
    (h : disjOpt a b = true) : b.getD (a.getD x) = a.getD (b.getD x) := by
  cases a <;> cases b <;> simp_all [disjOpt]

/-- C5: the usage merge is field-wise overwrite-if-present, and merging
two presence-disjoint partial usage events commutes. -/
theorem C5_usage_merge (u : Usage) (d e : UsageDelta)
    (h : UsageDelta.disjB d e = true) :
    mergeUsage (mergeUsage u d) e = mergeUsage (mergeUsage u e) d
    ∧ (mergeUsage u d).input = d.input.getD u.input
    ∧ (mergeUsage u d).output = d.output.getD u.output
    ∧ (mergeUsage u d).cache_read = d.cache_read.getD u.cache_read
    ∧ (mergeUsage u d).cache_write = d.cache_write.getD u.cache_write
    ∧ (mergeUsage u d).total_tokens = d.total_tokens.getD u.total_tokens := by
  refine ⟨?_, rfl, rfl, rfl, rfl, rfl⟩
  simp only [UsageDelta.disjB, Bool.and_eq_true] at h
  obtain ⟨⟨⟨⟨⟨h1, h2⟩, h3⟩, h4⟩, h5⟩, hc⟩ := h
  rcases hdc : d.cost with _ | cd <;> rcases hec : e.cost with _ | ce <;>
    simp only [mergeUsage, mergeCost, hdc, hec, Usage.mk.injEq, UsageCost.mk.injEq] <;>
    refine ⟨getD_disjOpt_comm _ _ _ h1, getD_disjOpt_comm _ _ _ h2,
      getD_disjOpt_comm _ _ _ h3, getD_disjOpt_comm _ _ _ h4,
      getD_disjOpt_comm _ _ _ h5, ?_⟩
  · trivial
  · trivial
  · trivial
  · rw [hdc, hec] at hc
    simp only [CostDelta.disjB, Bool.and_eq_true] at hc
    obtain ⟨⟨⟨⟨g1, g2⟩, g3⟩, g4⟩, g5⟩ := hc
    exact ⟨getD_disjOpt_comm _ _ _ g1, getD_disjOpt_comm _ _ _ g2,
      getD_disjOpt_comm _ _ _ g3, getD_disjOpt_comm _ _ _ g4,
      getD_disjOpt_comm _ _ _ g5⟩

/-- Usage event setting only `input := 10`. -/
def c5_d : UsageDelta := { emptyUsageDelta with input := some 10 }

/-- Usage event setting only `cache_read := 3`. -/
def c5_e : UsageDelta := { emptyUsageDelta with cache_read := some 3 }

/-- C5 witness: the spec's example — merging {input:10} and {cache_read:3}
commutes, and each merge overwrites exactly the present field. -/
theorem C5_usage_merge_witness :
    mergeUsage (mergeUsage zero_usage c5_d) c5_e
        = mergeUsage (mergeUsage zero_usage c5_e) c5_d
    ∧ (mergeUsage zero_usage c5_d).input = c5_d.input.getD zero_usage.input
    ∧ (mergeUsage zero_usage c5_d).output = c5_d.output.getD zero_usage.output
    ∧ (mergeUsage zero_usage c5_d).cache_read = c5_d.cache_read.getD zero_usage.cache_read
    ∧ (mergeUsage zero_usage c5_d).cache_write = c5_d.cache_write.getD zero_usage.cache_write
    ∧ (mergeUsage zero_usage c5_d).total_tokens
        = c5_d.total_tokens.getD zero_usage.total_tokens :=
  C5_usage_merge zero_usage c5_d c5_e (by decide)

/-- C6 (amended): processing an `error` event always finalizes with stop
reason `error`; the cached message carries the stringified payload as its
error description unless that string is empty, in which case the
description is absent (a missing payload yields "unknown error"). -/
theorem C6_error_finalizes (J : String → Option Json) (M : Model) (now : Int)
    (s : StreamState) (p : Option String) :
    ∃ m : AssistantMessage,
      cachedFinal (step J M now s (Event.error p)) = some m
      ∧ m.stop_reason = StopReason.error
      ∧ m.error_message =
          (if p.getD "unknown error" = "" then none else some (p.getD "unknown error")) := by
  refine ⟨_, rfl, ?_, ?_⟩
  · simp [assemble_final]
  · cases p with
    | none => simp [assemble_final]
    | some v => by_cases hv : v = "" <;> simp [assemble_final, hv]

/-- State after a single `error` event whose payload stringifies to the
empty string. -/
def c6_s : StreamState :=
  runEvents jNone mdl 0 initState [Event.error (some "")]

/-- C6 counterexample: an `error` event with an empty-string payload
finalizes with stop reason `error` but with no error description at all
(the `error_message` key is absent), refuting "carries a non-empty error
description" for arbitrary payloads. -/
theorem C6_counterexample :
    c6_s.final.map (fun m => m.stop_reason) = some StopReason.error
    ∧ c6_s.final.map (fun m => m.error_message) = some none := by
  exact ⟨rfl, rfl⟩

/-- C7: finalization of a tool-call whose argument buffer fails to parse
or parses to a non-object (hypothesis `hbad`) emits a block whose
arguments are the empty object, with the accumulated id and name (or the
fallbacks "toolcall:<index>" / "unknown" when empty) preserved. -/
theorem C7_malformed_args (J : String → Option Json) (M : Model) (now : Int)
    (s : StreamState) (i : Int) (c : ToolCallAcc)
    (hc : lookupTC s.tool_calls i = some c)
    (hbad : ∀ o, J c.arguments_json ≠ some (Json.obj o)) :
    ContentBlock.toolCall
        (if c.id = "" then "toolcall:" ++ toString i else c.id)
        (if c.name = "" then "unknown" else c.name)
        [] ∈ (assemble_final J M now s).content := by
  have hargs : finalize_args J c.arguments_json = [] := by
    unfold finalize_args
    split
    · rfl
    · cases hJ : J c.arguments_json with
      | none => rfl
      | some v =>
          cases v with
          | obj fields => exact absurd hJ (hbad fields)
          | null => rfl
          | bool b => rfl
          | num q => rfl
          | str t => rfl
          | arr es => rfl
  have hmem : i ∈ List.insertionSort (· ≤ ·) (s.tool_calls.map Prod.fst) := by
    rw [List.mem_insertionSort]
    exact mem_keys_of_lookupTC hc
  have hblock : assembleBlock J s.tool_calls i =
      ContentBlock.toolCall
        (if c.id = "" then "toolcall:" ++ toString i else c.id)
        (if c.name = "" then "unknown" else c.name) [] := by
    unfold assembleBlock
    rw [hc]
    simp [hargs]
  have hcontent : (assemble_final J M now s).content =
      (if s.text = "" then [] else [ContentBlock.text s.text])
        ++ (List.insertionSort (· ≤ ·) (s.tool_calls.map Prod.fst)).map
            (assembleBlock J s.tool_calls) := rfl
  rw [hcontent]
  exact List.mem_append_right _ (hblock ▸ List.mem_map_of_mem _ hmem)

/-- Concrete state with one accumulator whose argument buffer is not
parsable JSON. -/
def c7_s : StreamState :=
  { initState with
      tool_calls := [(0, { id := "", name := "", arguments_json := "not json" })] }

/-- C7 witness: the unparsable buffer finalizes to an empty arguments
object with the fallback id and name. -/
theorem C7_malformed_args_witness :
    ContentBlock.toolCall "toolcall:0" "unknown" []
      ∈ (assemble_final jNone mdl 0 c7_s).content := by
  have h := C7_malformed_args jNone mdl 0 c7_s 0
    { id := "", name := "", arguments_json := "not json" } rfl
    (fun o h => Option.noConfusion h)
  exact h

/-- The accumulator stored for index `i` after one `toolcall_delta` event
against state `s`. -/
def deltaAcc (s : StreamState) (i : Int) (idv namev argsv : Option String) : ToolCallAcc :=
  applyDelta ((lookupTC s.tool_calls i).getD { id := "", name := "", arguments_json := "" })
    idv namev argsv

theorem assemble_final_tc_congr (J : String → Option Json) (M : Model) (now : Int)
    (s : StreamState) (l₁ l₂ : List (Int × ToolCallAcc)) (hperm : l₁.Perm l₂)
    (hlk : ∀ k, lookupTC l₁ k = lookupTC l₂ k) (hnil : l₁ = [] ↔ l₂ = []) :
    assemble_final J M now { s with tool_calls := l₁ }
      = assemble_final J M now { s with tool_calls := l₂ } := by
  have hsort : List.insertionSort (· ≤ ·) (l₁.map Prod.fst)
      = List.insertionSort (· ≤ ·) (l₂.map Prod.fst) :=
    List.eq_of_perm_of_sorted
      ((List.perm_insertionSort _ _).trans
        ((hperm.map _).trans (List.perm_insertionSort _ _).symm))
      (List.sorted_insertionSort _ _) (List.sorted_insertionSort _ _)
  have hb : assembleBlock J l₁ = assembleBlock J l₂ :=
    funext fun k => by unfold assembleBlock; rw [hlk k]
  have hcond : (l₁ ≠ []) = (l₂ ≠ []) := propext (not_congr hnil)
  simp only [assemble_final, hsort, hb, hcond]

/-- C8: processing tool-call deltas for two distinct indices commutes up
to the assembled final message, and the final content is the optional
text block followed by one block per accumulated index in ascending
index order. -/
theorem C8_index_order (J : String → Option Json) (M : Model) (now : Int)
    (s : StreamState) (i j : Int) (hij : i ≠ j)
    (id1 nm1 ar1 id2 nm2 ar2 : Option String) :
    assemble_final J M now
        (step J M now (step J M now s (Event.toolcall_delta (some i) id1 nm1 ar1))
          (Event.toolcall_delta (some j) id2 nm2 ar2))
      = assemble_final J M now
        (step J M now (step J M now s (Event.toolcall_delta (some j) id2 nm2 ar2))
          (Event.toolcall_delta (some i) id1 nm1 ar1))
    ∧ ∃ ks : List Int, ks.Perm (s.tool_calls.map Prod.fst)
        ∧ List.Sorted (· ≤ ·) ks
        ∧ (assemble_final J M now s).content =
            (if s.text = "" then [] else [ContentBlock.text s.text])
              ++ ks.map (assembleBlock J s.tool_calls) := by
  constructor
  · have e1 : step J M now (step J M now s (Event.toolcall_delta (some i) id1 nm1 ar1))
        (Event.toolcall_delta (some j) id2 nm2 ar2)
      = { s with tool_calls := updateTC (updateTC s.tool_calls i (deltaAcc s i id1 nm1 ar1)) j (deltaAcc s j id2 nm2 ar2) } := by
      simp [step, deltaAcc, lookupTC_updateTC, Ne.symm hij]
    have e2 : step J M now (step J M now s (Event.toolcall_delta (some j) id2 nm2 ar2))
        (Event.toolcall_delta (some i) id1 nm1 ar1)
      = { s with tool_calls := updateTC (updateTC s.tool_calls j (deltaAcc s j id2 nm2 ar2)) i (deltaAcc s i id1 nm1 ar1) } := by
      simp [step, deltaAcc, lookupTC_updateTC, hij]
    rw [e1, e2]
    apply assemble_final_tc_congr
    · exact updateTC_updateTC_perm s.tool_calls i j hij _ _
    · intro k
      simp only [lookupTC_updateTC]
      by_cases hki : k = i
      · subst hki
        simp [hij]
      · by_cases hkj : k = j <;> simp [hki, hkj, Ne.symm hij]
    · exact iff_of_false (updateTC_ne_nil _ _ _) (updateTC_ne_nil _ _ _)
  · exact ⟨_, List.perm_insertionSort _ _, List.sorted_insertionSort _ _, rfl⟩

/-- C8 witness: indices 1 then 0 and 0 then 1 assemble identically, and
the content layout statement holds at the initial state. -/
theorem C8_index_order_witness :
    assemble_final jNone mdl 0
        (step jNone mdl 0
          (step jNone mdl 0 initState (Event.toolcall_delta (some 1) none none none))
          (Event.toolcall_delta (some 0) none none none))
      = assemble_final jNone mdl 0
        (step jNone mdl 0
          (step jNone mdl 0 initState (Event.toolcall_delta (some 0) none none none))
          (Event.toolcall_delta (some 1) none none none))
    ∧ ∃ ks : List Int, ks.Perm (initState.tool_calls.map Prod.fst)
        ∧ List.Sorted (· ≤ ·) ks
        ∧ (assemble_final jNone mdl 0 initState).content =
            (if initState.text = "" then [] else [ContentBlock.text initState.text])
              ++ ks.map (assembleBlock jNone initState.tool_calls) :=
  C8_index_order jNone mdl 0 initState 1 0 (by decide) none none none none none none

/-- Key-membership test modelling `api in _PROVIDERS`
(src/pi_ai/registry.py line 18). -/
def hasKey {α : Type} (regs : List (String × α)) (api : String) : Bool :=
  decide (api ∈ regs.map Prod.fst)

/-- `register_api_provider` from src/pi_ai/registry.py, with the registry
dict as explicit state: the raise is modelled as returning the unchanged
registry together with the error text; a successful registration appends
the new key (Python dict insertion order). -/
def register_api_provider {α : Type} (regs : List (String × α)) (api : String) (p : α) :
    List (String × α) × Option String :=
  if hasKey regs api then
    (regs, some ("Provider already registered for api: " ++ api))
  else (regs ++ [(api, p)], none)

/-- C9: registering an already-present API identifier raises and leaves
the registry unchanged; registering an absent identifier appends it; key
uniqueness of the registry is preserved, so at most one provider is ever
stored per identifier. -/
theorem C9_register_unique (α : Type) (regs : List (String × α)) (api : String) (p : α) :
    (hasKey regs api = true →
        register_api_provider regs api p
          = (regs, some ("Provider already registered for api: " ++ api)))
    ∧ (hasKey regs api = false →
        register_api_provider regs api p = (regs ++ [(api, p)], none))
    ∧ ((regs.map Prod.fst).Nodup →
        (((register_api_provider regs api p).1).map Prod.fst).Nodup) := by
  refine ⟨fun h => by simp [register_api_provider, h],
    fun h => by simp [register_api_provider, h], fun hnd => ?_⟩
  by_cases h : hasKey regs api
  · simpa [register_api_provider, h] using hnd
  · have hmem : api ∉ regs.map Prod.fst := by simpa [hasKey] using h
    simp [register_api_provider, h, List.nodup_append, hnd, hmem]

/-- C9 witness: a duplicate registration errors and leaves the registry
as it was; a fresh registration appends. -/
theorem C9_register_unique_witness :
    register_api_provider [("a", (1 : Int))] "a" 2
        = ([("a", (1 : Int))], some ("Provider already registered for api: " ++ "a"))
    ∧ register_api_provider [("a", (1 : Int))] "b" 2
        = ([("a", (1 : Int))] ++ [("b", 2)], none) :=
  ⟨(C9_register_unique Int [("a", 1)] "a" 2).1 (by decide),
   (C9_register_unique Int [("a", 1)] "b" 2).2.1 (by decide)⟩

/-- `cost_details` sub-dict of an OpenAI-style usage object
(src/pi_ai/providers/openai_compat.py lines 47-54); `none` marks keys that
are absent or not numeric. -/
structure CostDetails where
  upstream_inference_prompt_cost : Option Rat
  upstream_inference_completions_cost : Option Rat
deriving DecidableEq, Repr

/-- OpenAI-style usage object as read by `_usage_from_openai`; `none`
marks keys that are absent or fail the `isinstance` check. -/
structure OpenAIUsage where
  prompt_tokens : Option Int
  completion_tokens : Option Int
  total_tokens : Option Int
  cost : Option Rat
  cost_details : Option CostDetails
deriving DecidableEq, Repr

/-- `_usage_from_openai` (src/pi_ai/providers/openai_compat.py lines
14-64): token counts default to 0 (total to prompt+completion), the cost
split comes from `cost_details` when present, and an explicit numeric
`cost` overwrites the total (the source's inner "keep total only" branch
is a no-op and is elided). -/
def usage_from_openai (u : OpenAIUsage) : Usage :=
  let prompt := u.prompt_tokens.getD 0
  let completion := u.completion_tokens.getD 0
  let total := u.total_tokens.getD (prompt + completion)
  let c1 : UsageCost :=
    match u.cost_details with
    | some cd =>
        let ci := cd.upstream_inference_prompt_cost.getD 0
        let co := cd.upstream_inference_completions_cost.getD 0
        { input := ci, output := co, cache_read := 0, cache_write := 0, total := ci + co }
    | none => { input := 0, output := 0, cache_read := 0, cache_write := 0, total := 0 }
  let c2 : UsageCost :=
    match u.cost with
    | some t => { c1 with total := t }
    | none => c1
  { input := prompt, output := completion, cache_read := 0, cache_write := 0
    total_tokens := total, cost := c2 }

/-- The pricing fallback applied per streamed usage frame in
`OpenAICompatibleProvider.stream` (src/pi_ai/providers/openai_compat.py
lines 217-227): when the mapped cost total is exactly zero and at least
one per-token price was supplied in options, recompute each priced side
as tokens / 1,000,000 x price and set the total to the sum of the two
sides. -/
def apply_cost_fallback (pricing_in pricing_out : Option Rat) (m : Usage) : Usage :=
  if m.cost.total = 0 ∧ (pricing_in.isSome ∨ pricing_out.isSome) then
    let ci := match pricing_in with
      | some p => (m.input : Rat) / 1000000 * p
      | none => m.cost.input
    let co := match pricing_out with
      | some p => (m.output : Rat) / 1000000 * p
      | none => m.cost.output
    { m with cost := { m.cost with input := ci, output := co, total := ci + co } }
  else m

/-- The usage record yielded for one streamed frame carrying a usage
object: the schema mapping followed by the optional pricing fallback. -/
def stream_usage_mapped (pricing_in pricing_out : Option Rat) (u : OpenAIUsage) : Usage :=
  apply_cost_fallback pricing_in pricing_out (usage_from_openai u)

/-- C4 (amended): an explicit vendor cost total is carried verbatim into
the mapped record, and a nonzero mapped total suppresses the fallback
entirely; the pricing fallback fires exactly when the mapped total is
zero — whether the vendor reported a zero cost or no cost at all — and
then each priced side equals tokens / 1,000,000 x price and the final
total is the sum of the input and output sides. -/
theorem C4_cost_mapping (pin pout : Option Rat) (u : OpenAIUsage) :
    ((usage_from_openai u).cost.total ≠ 0 →
        stream_usage_mapped pin pout u = usage_from_openai u)
    ∧ (∀ t : Rat, u.cost = some t → (usage_from_openai u).cost.total = t)
    ∧ ((usage_from_openai u).cost.total = 0 → pin.isSome ∨ pout.isSome →
        (∀ p : Rat, pin = some p →
            (stream_usage_mapped pin pout u).cost.input
              = ((usage_from_openai u).input : Rat) / 1000000 * p)
        ∧ (∀ p : Rat, pout = some p →
            (stream_usage_mapped pin pout u).cost.output
              = ((usage_from_openai u).output : Rat) / 1000000 * p)
        ∧ (stream_usage_mapped pin pout u).cost.total
            = (stream_usage_mapped pin pout u).cost.input
              + (stream_usage_mapped pin pout u).cost.output) := by
  refine ⟨fun h => ?_, fun t ht => ?_, fun h0 hp => ?_⟩
  · simp [stream_usage_mapped, apply_cost_fallback, h]
  · rcases hcd : u.cost_details with _ | cd <;> simp [usage_from_openai, hcd, ht]
  · refine ⟨fun p hpin => ?_, fun p hpout => ?_, ?_⟩
    · subst hpin
      simp [stream_usage_mapped, apply_cost_fallback, h0, hp]
    · subst hpout
      rcases pin with _ | p0 <;>
        simp [stream_usage_mapped, apply_cost_fallback, h0, hp]
    · rcases hi : pin with _ | p0 <;> rcases ho : pout with _ | q0 <;>
        subst hi <;> subst ho <;>
        simp_all [stream_usage_mapped, apply_cost_fallback, h0]

/-- Usage frame reporting 10 prompt tokens and an explicit cost total of
exactly zero. -/
def c4_u : OpenAIUsage :=
  { prompt_tokens := some 10, completion_tokens := some 0, total_tokens := none
    cost := some 0, cost_details := none }

/-- C4 counterexample: the vendor explicitly reports a cost total of 0.0
yet with an input price of 2 USD per 1M tokens supplied the mapped total
becomes 10 / 1,000,000 x 2 = 1/50000 — the explicit vendor total is NOT
carried through verbatim, because the fallback keys on "total == 0.0"
rather than on the cost field being absent. -/
theorem C4_counterexample :
    c4_u.cost = some 0
    ∧ (stream_usage_mapped (some 2) none c4_u).cost.total = 1 / 50000
    ∧ (1 / 50000 : Rat) ≠ 0 := by
  refine ⟨rfl, ?_, by norm_num⟩
  norm_num [stream_usage_mapped, apply_cost_fallback, usage_from_openai, c4_u]

/-- Usage frame with a nonzero explicit cost total. -/
def c4_u2 : OpenAIUsage :=
  { prompt_tokens := some 10, completion_tokens := some 5, total_tokens := none
    cost := some 7, cost_details := none }

/-- C4 witness: a nonzero explicit total suppresses the fallback and is
carried verbatim; a zero total with pricing present computes the input
side from the price. -/
theorem C4_cost_mapping_witness :
    stream_usage_mapped (some 2) none c4_u2 = usage_from_openai c4_u2
    ∧ (usage_from_openai c4_u2).cost.total = 7
    ∧ (stream_usage_mapped (some 2) none c4_u).cost.input
        = ((usage_from_openai c4_u).input : Rat) / 1000000 * 2 :=
  ⟨(C4_cost_mapping (some 2) none c4_u2).1 (by decide),
   (C4_cost_mapping (some 2) none c4_u2).2.1 7 rfl,
   ((C4_cost_mapping (some 2) none c4_u).2.2 (by decide) (Or.inl rfl)).1 2 rfl⟩

end PiAI
